import Mathlib

/-!
Verification of the deferred-execution core of folly futures
(src/folly/futures/Future-pre.h): the continuation-signature resolver
(callableWith / callableResult / isFutureOrSemiFuture) and the
DeferredExecutor deferred-work cell (add / setExecutor / enqueueWork /
keep-alive reference counting).

The embedding is shallow: C++ template metaprogramming over types becomes
Lean functions over an inductive type of C++ types; the runtime cell
becomes a Lean structure with explicit observation fields (submission log,
inline-call log, destruction counter); the two racing member functions
become micro-step programs over a shared configuration so that every
interleaving is a schedule.
-/

namespace Folly

/-! ### C++ types, as seen by the resolver (lines 24-69, 114-131 of Future-pre.h) -/

/-- A fragment of the C++ type language: the base types the claims mention,
folly Unit, Future, SemiFuture and Try type constructors. -/
inductive CppType where
  | voidT : CppType
  | unitT : CppType
  | intT : CppType
  | boolT : CppType
  | stringT : CppType
  | future : CppType → CppType
  | semiFuture : CppType → CppType
  | tryT : CppType → CppType
deriving DecidableEq

/-- folly Unit.Lift: void is lifted to Unit, every other type is unchanged. -/
def unitLift (t : CppType) : CppType :=
  if t = CppType.voidT then CppType.unitT else t

/-- isFutureOrSemiFuture value member (lines 47-63): true exactly on
Future and SemiFuture instantiations. -/
def isFutureOrSemiFutureValue : CppType → Bool
  | CppType.future _ => true
  | CppType.semiFuture _ => true
  | _ => false

/-- isFutureOrSemiFuture Inner member (lines 47-63): the wrapped type for
Future and SemiFuture, and Unit.Lift of the type itself otherwise. -/
def isFutureOrSemiFutureInner : CppType → CppType
  | CppType.future t => t
  | CppType.semiFuture t => t
  | t => unitLift t

/-- isFutureOrSemiFuture Return member (lines 50, 56, 62). -/
def isFutureOrSemiFutureReturn : CppType → CppType
  | CppType.future t => CppType.future t
  | CppType.semiFuture t => CppType.semiFuture t
  | t => unitLift t

/-- callableResult Return (lines 129-130) as a function of the raw result
type R of the selected calling form: Future of the Inner member of
isFutureOrSemiFuture applied to R. -/
def composedReturn (R : CppType) : CppType :=
  CppType.future (isFutureOrSemiFutureInner R)

/-! ### The five calling forms tried by callableResult (lines 114-131) -/

/-- The argument forms callableResult probes, in source order: no
arguments, T by rvalue, T by lvalue reference, Try of T by rvalue, Try of
T by lvalue reference. -/
inductive ArgForm where
  | noArgs : ArgForm
  | valueMove : ArgForm
  | valueRef : ArgForm
  | tryMove : ArgForm
  | tryRef : ArgForm
deriving DecidableEq

/-- A C++ callable, abstracted to what the SFINAE probes of callableWith
can observe about it against a fixed value type T: which of the five
calling forms are well-formed, and the raw result type of each form. -/
structure Callable where
  accepts : ArgForm → Bool
  result : ArgForm → CppType

/-- callableWith (lines 100-112): the SFINAE test of whether resultOf of
the callable at the given argument form exists. -/
def callableWith (f : Callable) (a : ArgForm) : Bool :=
  f.accepts a

/-- The Arg selection of callableResult (lines 116-128): a chain of
std conditionals trying no-args, then T rvalue, then T lvalue reference,
then Try rvalue, defaulting to Try lvalue reference. -/
def callableResultArg (f : Callable) : ArgForm :=
  if callableWith f ArgForm.noArgs then ArgForm.noArgs
  else if callableWith f ArgForm.valueMove then ArgForm.valueMove
  else if callableWith f ArgForm.valueRef then ArgForm.valueRef
  else if callableWith f ArgForm.tryMove then ArgForm.tryMove
  else ArgForm.tryRef

/-- The full Return member of callableResult (line 130): composedReturn of
the raw result of the selected calling form. -/
def callableResultReturn (f : Callable) : CppType :=
  composedReturn (f.result (callableResultArg f))

/-- The fixed priority order of calling forms stated by the specification. -/
def resolutionOrder : List ArgForm :=
  [ArgForm.noArgs, ArgForm.valueMove, ArgForm.valueRef,
   ArgForm.tryMove, ArgForm.tryRef]

/-- A continuation declared to take no arguments: only the zero-argument
form is well-formed (invoking it with any argument fails SFINAE). -/
def zeroArgCallable : Callable where
  accepts := fun a => a = ArgForm.noArgs
  result := fun _ => CppType.voidT

/-- DeferredWorkWrapper (lines 185-193): captures a keep-alive token
(identified by a natural number) and the wrapped callable; its call
operator forwards the argument list to the captured function and returns
its result. The token field a is held for as long as the wrapper lives,
in particular for the duration of any call. -/
structure DeferredWorkWrapper (α β : Type) where
  a : Nat
  func : α → β

/-- The call operator of DeferredWorkWrapper (lines 187-189). -/
def DeferredWorkWrapper.call {α β : Type} (wr : DeferredWorkWrapper α β) (x : α) : β :=
  wr.func x

/-- DeferredExecutor wrap (lines 258-263): package a keep-alive token and
a callable into a DeferredWorkWrapper. -/
def wrap {α β : Type} (keepAlive : Nat) (func : α → β) : DeferredWorkWrapper α β :=
  { a := keepAlive, func := func }

/-! ### DeferredExecutor: the deferred-work cell (lines 176-302) -/

/-- The private State enum of DeferredExecutor (lines 282-287). -/
inductive State where
  | NEW : State
  | HAS_EXECUTOR : State
  | HAS_CALLBACK : State
  | RUNNING : State
deriving DecidableEq

/-- The fatal contract-violation paths of the cell: the assert at the top
of add (line 212), the DCHECK in enqueueWork (line 297), and dereferencing
an absent executor keep-alive (line 299). -/
inductive ContractViolation where
  | assertFuncPresent : ContractViolation
  | dcheckNoFunc : ContractViolation
  | nullExecutorDeref : ContractViolation
deriving DecidableEq

/-- The state of one DeferredExecutor object. Work items and executors are
identified by natural numbers. The first four fields mirror the members
func_, keepAliveCount_, state_, executorKeepAlive_ (lines 289-292); the
last three are observation logs: every pair (executor, work) handed to the
executor add call in enqueueWork, every work item invoked inline by the
reentrant fast path of add, and the number of times delete this ran. -/
structure Cell where
  func : Option Nat
  keepAliveCount : Int
  state : State
  executorKeepAlive : Option Nat
  submissions : List (Nat × Nat)
  inlineCalls : List Nat
  destroyed : Nat
deriving DecidableEq

/-- A freshly constructed DeferredExecutor (default member initializers,
lines 289-292): no work, reference count zero, state NEW, no executor. -/
def Cell.fresh : Cell :=
  { func := none
    keepAliveCount := 0
    state := State.NEW
    executorKeepAlive := none
    submissions := []
    inlineCalls := []
    destroyed := 0 }

/-- keepAliveAcquire (lines 266-268): increment the reference count. -/
def keepAliveAcquire (c : Cell) : Cell :=
  { c with keepAliveCount := c.keepAliveCount + 1 }

/-- releaseAndTryFree (lines 274-279): decrement the reference count and
delete the object when it reaches zero. -/
def releaseAndTryFree (c : Cell) : Cell :=
  let c2 := { c with keepAliveCount := c.keepAliveCount - 1 }
  if c2.keepAliveCount = 0 then { c2 with destroyed := c2.destroyed + 1 } else c2

/-- keepAliveRelease (lines 270-272) forwards to releaseAndTryFree. -/
def keepAliveRelease (c : Cell) : Cell :=
  releaseAndTryFree c

/-- create (lines 199-205): construct a fresh cell and take one keep-alive
token on it (getKeepAliveToken calls keepAliveAcquire, lines 251-254). -/
def Cell.create : Cell :=
  keepAliveAcquire Cell.fresh

/-- enqueueWork (lines 296-301), sequential semantics: DCHECK that work is
present, store RUNNING, and hand the work (moved out of func_) to the
attached executor, which is dereferenced from executorKeepAlive_. -/
def enqueueWork (c : Cell) : Except ContractViolation Cell :=
  match c.func with
  | none => Except.error ContractViolation.dcheckNoFunc
  | some w =>
    match c.executorKeepAlive with
    | none => Except.error ContractViolation.nullExecutorDeref
    | some e =>
      Except.ok { c with
        state := State.RUNNING
        func := none
        submissions := c.submissions ++ [(e, w)] }

/-- add (lines 208-234), sequential semantics (the two loads of state_ and
the compare-exchange all observe the same value): assert func_ is empty;
if RUNNING, invoke the work inline and return; otherwise store the work,
and either move NEW to HAS_CALLBACK and return, or fall through to
enqueueWork. -/
def add (w : Nat) (c : Cell) : Except ContractViolation Cell :=
  if c.func.isSome then Except.error ContractViolation.assertFuncPresent
  else if c.state = State.RUNNING then
    Except.ok { c with inlineCalls := c.inlineCalls ++ [w] }
  else
    let c2 := { c with func := some w }
    if c2.state = State.NEW then Except.ok { c2 with state := State.HAS_CALLBACK }
    else enqueueWork c2

/-- setExecutor (lines 236-249), sequential semantics: store the keep-alive
of the executor, and either move NEW to HAS_EXECUTOR and return, or fall
through to enqueueWork. -/
def setExecutor (e : Nat) (c : Cell) : Except ContractViolation Cell :=
  let c2 := { c with executorKeepAlive := some e }
  if c2.state = State.NEW then Except.ok { c2 with state := State.HAS_EXECUTOR }
  else enqueueWork c2

/-- enqueueWork instantiated with an execution context that runs submitted
work inline on the submitting thread, where the submitted work itself calls
add with a new work item w2 on the same cell. Mirrors the source order: the
store of RUNNING (line 298) happens before the executor add call (line
299), and std move empties func_ before the work body runs, so the
reentrant add observes state RUNNING and an empty func_. -/
def enqueueWorkInlineReentrant (w2 : Nat) (c : Cell) : Except ContractViolation Cell :=
  match c.func with
  | none => Except.error ContractViolation.dcheckNoFunc
  | some w =>
    match c.executorKeepAlive with
    | none => Except.error ContractViolation.nullExecutorDeref
    | some e =>
      add w2 { c with
        state := State.RUNNING
        func := none
        submissions := c.submissions ++ [(e, w)] }

/-! ### Interleaved execution of one add and one setExecutor

  The two member functions are decomposed into their individual shared-memory
  accesses (loads, stores and the compare-exchange on the atomic state_, plus
  the single-writer accesses to func_ and executorKeepAlive_), each a
  program-counter step; an interleaving is a schedule of booleans saying which
  thread performs the next step. This models the sequentially consistent
  semantics of the default-ordering std atomic operations in the source. -/

/-- Shared configuration of the race between one add call (thread A, program
counter pcAdd) and one setExecutor call (thread B, program counter pcSet) on
the same cell. The memory fields mirror the Cell fields; the logs record
submissions to the executor, inline invocations and contract violations. -/
structure RaceConfig where
  pcAdd : Nat
  pcSet : Nat
  state : State
  func : Option Nat
  executorKeepAlive : Option Nat
  submissions : List (Nat × Nat)
  inlineCalls : List Nat
  violation : Bool
deriving DecidableEq

/-- One step of the add call (lines 208-234) carrying work item w.
Program counters: 0 assert on func_ (line 212); 1 load state_ and test
RUNNING (line 215), invoking the work inline when it is; 2 store func_
(line 221); 3 load state_ and compare with NEW (line 226); 4 the
compare-exchange NEW to HAS_CALLBACK (line 227); 5 the DCHECK of
enqueueWork (line 297); 6 store RUNNING (line 298); 7 hand the moved work
to the executor (line 299). Halt counters: 8 returned after a successful
compare-exchange, 9 returned after enqueueWork, 10 returned after the
inline fast path, 11 halted on a contract violation. -/
def addStep (w : Nat) (m : RaceConfig) : RaceConfig :=
  match m.pcAdd with
  | 0 => if m.func.isSome then { m with violation := true, pcAdd := 11 }
         else { m with pcAdd := 1 }
  | 1 => if m.state = State.RUNNING then
           { m with inlineCalls := m.inlineCalls ++ [w], pcAdd := 10 }
         else { m with pcAdd := 2 }
  | 2 => { m with func := some w, pcAdd := 3 }
  | 3 => if m.state = State.NEW then { m with pcAdd := 4 } else { m with pcAdd := 5 }
  | 4 => if m.state = State.NEW then { m with state := State.HAS_CALLBACK, pcAdd := 8 }
         else { m with pcAdd := 5 }
  | 5 => if m.func.isNone then { m with violation := true, pcAdd := 11 }
         else { m with pcAdd := 6 }
  | 6 => { m with state := State.RUNNING, pcAdd := 7 }
  | 7 => match m.executorKeepAlive, m.func with
         | some e, some w0 =>
           { m with submissions := m.submissions ++ [(e, w0)], func := none, pcAdd := 9 }
         | _, _ => { m with violation := true, pcAdd := 11 }
  | _ => m

/-- One step of the setExecutor call (lines 236-249) carrying executor e.
Program counters: 0 store executorKeepAlive_ (line 237); 1 load state_ and
compare with NEW (line 241); 2 the compare-exchange NEW to HAS_EXECUTOR
(line 242); 3 the DCHECK of enqueueWork (line 297); 4 store RUNNING (line
298); 5 hand the moved work to the executor (line 299). Halt counters: 8
returned after a successful compare-exchange, 9 returned after
enqueueWork, 11 halted on a contract violation. -/
def setExecutorStep (e : Nat) (m : RaceConfig) : RaceConfig :=
  match m.pcSet with
  | 0 => { m with executorKeepAlive := some e, pcSet := 1 }
  | 1 => if m.state = State.NEW then { m with pcSet := 2 } else { m with pcSet := 3 }
  | 2 => if m.state = State.NEW then { m with state := State.HAS_EXECUTOR, pcSet := 8 }
         else { m with pcSet := 3 }
  | 3 => if m.func.isNone then { m with violation := true, pcSet := 11 }
         else { m with pcSet := 4 }
  | 4 => { m with state := State.RUNNING, pcSet := 5 }
  | 5 => match m.executorKeepAlive, m.func with
         | some e0, some w0 =>
           { m with submissions := m.submissions ++ [(e0, w0)], func := none, pcSet := 9 }
         | _, _ => { m with violation := true, pcSet := 11 }
  | _ => m

/-- Run a schedule: true gives the next step to the add thread, false to
the setExecutor thread. Steps given to a halted thread do nothing. -/
def runRace (w e : Nat) : List Bool → RaceConfig → RaceConfig
  | [], m => m
  | b :: rest, m => runRace w e rest (if b then addStep w m else setExecutorStep e m)

/-- The configuration at the start of the race: a freshly created cell,
neither call begun. -/
def RaceConfig.init : RaceConfig :=
  { pcAdd := 0
    pcSet := 0
    state := State.NEW
    func := none
    executorKeepAlive := none
    submissions := []
    inlineCalls := []
    violation := false }

/-- The add call has run to completion. -/
def addDone (m : RaceConfig) : Prop :=
  m.pcAdd = 8 ∨ m.pcAdd = 9 ∨ m.pcAdd = 10 ∨ m.pcAdd = 11

/-- The setExecutor call has run to completion. -/
def setExecutorDone (m : RaceConfig) : Prop :=
  m.pcSet = 8 ∨ m.pcSet = 9 ∨ m.pcSet = 11

/-- The inductive invariant of the race: the logs and memory are a function
of how far each thread has progressed, and the program counters of the two
threads are correlated (a thread is past its compare-exchange into
enqueueWork only when the other thread won its compare-exchange). -/
def RaceInv (w e : Nat) (m : RaceConfig) : Prop :=
  m.violation = false ∧
  m.inlineCalls = [] ∧
  m.pcAdd ≤ 9 ∧
  (m.pcSet ≤ 5 ∨ m.pcSet = 8 ∨ m.pcSet = 9) ∧
  (m.pcAdd = 5 ∨ m.pcAdd = 6 ∨ m.pcAdd = 7 ∨ m.pcAdd = 9 → m.pcSet = 8) ∧
  (m.pcSet = 3 ∨ m.pcSet = 4 ∨ m.pcSet = 5 ∨ m.pcSet = 9 → m.pcAdd = 8) ∧
  ¬(m.pcAdd = 8 ∧ m.pcSet = 8) ∧
  m.executorKeepAlive = (if m.pcSet = 0 then none else some e) ∧
  m.func = (if 3 ≤ m.pcAdd ∧ m.pcAdd ≠ 9 ∧ m.pcSet ≠ 9 then some w else none) ∧
  m.submissions = (if m.pcAdd = 9 ∨ m.pcSet = 9 then [(e, w)] else []) ∧
  m.state = (if m.pcAdd = 7 ∨ m.pcAdd = 9 ∨ m.pcSet = 5 ∨ m.pcSet = 9 then State.RUNNING
             else if m.pcAdd = 8 then State.HAS_CALLBACK
             else if m.pcSet = 8 then State.HAS_EXECUTOR
             else State.NEW)

/-! ### Keep-alive token sequences (claim about lifetime discipline) -/

/-- One keep-alive operation: true is keepAliveAcquire, false is
keepAliveRelease. -/
def tokenStep (acquire : Bool) (c : Cell) : Cell :=
  if acquire then keepAliveAcquire c else keepAliveRelease c

/-- Run a sequence of keep-alive operations on a cell, first element
first. -/
def runTokens : List Bool → Cell → Cell
  | [], c => c
  | op :: rest, c => runTokens rest (tokenStep op c)

/-! ## Theorems -/

/-- C1: if exactly one work item and one execution context are attached
sequentially in either order (add then setExecutor, or setExecutor then
add) on a freshly created cell, the work is submitted to that context
exactly once, and never before both calls have occurred: after the first
call alone the submission log is still empty, and after the second call
it holds exactly one entry pairing the context with the work. -/
theorem add_setExecutor_exactlyOnce (w e : Nat) :
    add w Cell.create = Except.ok
      { func := some w, keepAliveCount := 1, state := State.HAS_CALLBACK,
        executorKeepAlive := none, submissions := [], inlineCalls := [], destroyed := 0 } ∧
    setExecutor e
      { func := some w, keepAliveCount := 1, state := State.HAS_CALLBACK,
        executorKeepAlive := none, submissions := [], inlineCalls := [], destroyed := 0 } =
      Except.ok
      { func := none, keepAliveCount := 1, state := State.RUNNING,
        executorKeepAlive := some e, submissions := [(e, w)], inlineCalls := [], destroyed := 0 } ∧
    setExecutor e Cell.create = Except.ok
      { func := none, keepAliveCount := 1, state := State.HAS_EXECUTOR,
        executorKeepAlive := some e, submissions := [], inlineCalls := [], destroyed := 0 } ∧
    add w
      { func := none, keepAliveCount := 1, state := State.HAS_EXECUTOR,
        executorKeepAlive := some e, submissions := [], inlineCalls := [], destroyed := 0 } =
      Except.ok
      { func := none, keepAliveCount := 1, state := State.RUNNING,
        executorKeepAlive := some e, submissions := [(e, w)], inlineCalls := [], destroyed := 0 } :=
  ⟨rfl, rfl, rfl, rfl⟩

/-- C3: the Arg selection of callableResult tries the five calling forms
in the fixed first-match-wins order no-arguments, T by rvalue, T by
lvalue reference, Try of T by rvalue, Try of T by lvalue reference (the
last being the default); equivalently it returns the first form of
resolutionOrder the callable accepts. In particular a zero-argument
callable resolves to the value-discarding no-arguments form. -/
theorem callableResult_resolutionOrder :
    (∀ f : Callable, callableResultArg f =
      (List.find? (fun a => callableWith f a) resolutionOrder).getD ArgForm.tryRef) ∧
    callableResultArg zeroArgCallable = ArgForm.noArgs := by
  constructor
  · intro f
    simp only [callableResultArg, resolutionOrder]
    cases h0 : callableWith f ArgForm.noArgs <;>
    cases h1 : callableWith f ArgForm.valueMove <;>
    cases h2 : callableWith f ArgForm.valueRef <;>
    cases h3 : callableWith f ArgForm.tryMove <;>
    cases h4 : callableWith f ArgForm.tryRef <;>
    simp [List.find?, h0, h1, h2, h3, h4]
  · rfl

/-- C4: when the raw return type of the continuation is itself an
asynchronous-result type, ordinary Future u or deferred-flavor
SemiFuture u, the composed outer type produced by callableResult is the
ordinary Future of the inner value, flattened one level; in particular a
continuation returning an asynchronous result of boolean composes to the
ordinary asynchronous type of boolean. -/
theorem composedReturn_flattens (u : CppType) :
    composedReturn (CppType.future u) = CppType.future u ∧
    composedReturn (CppType.semiFuture u) = CppType.future u ∧
    composedReturn (CppType.future CppType.boolT) = CppType.future CppType.boolT ∧
    composedReturn (CppType.semiFuture CppType.boolT) = CppType.future CppType.boolT :=
  ⟨rfl, rfl, rfl, rfl⟩

/-- C8 counterexample: for the raw return type void the composed outer
type computed by the code is Future of Unit (void is lifted through
Unit.Lift), which is not Future of void, so the composed type does not
wrap the raw return type itself in the void case. -/
theorem composedReturn_void_counterexample :
    composedReturn CppType.voidT = CppType.future CppType.unitT ∧
    composedReturn CppType.voidT ≠ CppType.future CppType.voidT :=
  ⟨rfl, by decide⟩

/-- C8 amended: for every raw return type R that is not an
asynchronous-result type, the composed outer type wraps R lifted through
Unit.Lift: it is Future of R whenever R is not void, and Future of Unit
when R is void. -/
theorem composedReturn_wraps_nonFuture :
    (∀ r : CppType, isFutureOrSemiFutureValue r = false → r ≠ CppType.voidT →
      composedReturn r = CppType.future r) ∧
    composedReturn CppType.voidT = CppType.future CppType.unitT := by
  constructor
  · intro r hr hv
    cases r <;> simp_all [composedReturn, isFutureOrSemiFutureInner, unitLift,
      isFutureOrSemiFutureValue]
  · rfl

/-- Witness for the amended C8 theorem at the concrete type int. -/
theorem composedReturn_wraps_nonFuture_witness :
    composedReturn CppType.intT = CppType.future CppType.intT :=
  composedReturn_wraps_nonFuture.1 CppType.intT rfl (by decide)

/-- C9: wrap packages a keep-alive token and a continuation closure into a
zero-argument work value whose invocation forwards to the closure and
returns its result, while the token stays captured in the wrapper (so it
is held for the duration of the call). -/
theorem wrap_forwards {β : Type} (k : Nat) (f : Unit → β) :
    (wrap k f).call () = f () ∧ (wrap k f).a = k :=
  ⟨rfl, rfl⟩

/-- C6: on a cell in the RUNNING state (whose pending work has necessarily
been moved out already), add invokes the new work item immediately and
synchronously on the calling thread: the inline-call log grows by the new
item while the stored work, the executor and the submission log are
untouched. -/
theorem add_running_fastPath (w : Nat) (c : Cell)
    (hs : c.state = State.RUNNING) (hf : c.func = none) :
    add w c = Except.ok { c with inlineCalls := c.inlineCalls ++ [w] } := by
  simp [add, hs, hf]

/-- Witness for the C6 theorem on a concrete RUNNING cell. -/
theorem add_running_fastPath_witness :
    add 5 { Cell.create with state := State.RUNNING } =
      Except.ok { Cell.create with state := State.RUNNING, inlineCalls := [5] } :=
  add_running_fastPath 5 { Cell.create with state := State.RUNNING } rfl rfl

/-- C7: attaching a work item a second time on the same cell before it
reaches RUNNING (the first add left the cell in HAS_CALLBACK with the
work still pending) triggers the fatal assert at the top of add, not a
normal return and not a replacement of the pending work. -/
theorem add_double_attach_asserts (w w2 : Nat) (c : Cell)
    (h : add w Cell.create = Except.ok c) :
    c.state ≠ State.RUNNING ∧
    add w2 c = Except.error ContractViolation.assertFuncPresent := by
  have hc : c =
      { func := some w, keepAliveCount := 1, state := State.HAS_CALLBACK,
        executorKeepAlive := none, submissions := [], inlineCalls := [], destroyed := 0 } := by
    have h2 : add w Cell.create = Except.ok
        { func := some w, keepAliveCount := 1, state := State.HAS_CALLBACK,
          executorKeepAlive := none, submissions := [], inlineCalls := [],
          destroyed := 0 } := rfl
    have h3 := h2.symm.trans h
    injection h3 with h4
    exact h4.symm
  subst hc
  exact ⟨fun hx => State.noConfusion hx, rfl⟩

/-- Witness for the C7 theorem: the cell produced by the first add of work
item 0, then a second add of work item 1. -/
theorem add_double_attach_asserts_witness :
    State.HAS_CALLBACK ≠ State.RUNNING ∧
    add 1
      { func := some 0, keepAliveCount := 1, state := State.HAS_CALLBACK,
        executorKeepAlive := none, submissions := [], inlineCalls := [],
        destroyed := 0 } = Except.error ContractViolation.assertFuncPresent :=
  add_double_attach_asserts 0 1
    { func := some 0, keepAliveCount := 1, state := State.HAS_CALLBACK,
      executorKeepAlive := none, submissions := [], inlineCalls := [],
      destroyed := 0 } rfl

/-- C10: whenever the cell submits its pending work, enqueueWork stores
RUNNING and empties the pending slot before handing the pair to the
context; consequently, when the context runs the work inline on the
submitting thread and that work calls add again, the reentrant call
observes RUNNING, takes the synchronous fast path, and no second
submission is made. -/
theorem enqueueWork_running_before_submit (w w2 e : Nat) (c : Cell)
    (hf : c.func = some w) (he : c.executorKeepAlive = some e) :
    enqueueWork c = Except.ok
      { c with
        state := State.RUNNING, func := none,
        submissions := c.submissions ++ [(e, w)] } ∧
    enqueueWorkInlineReentrant w2 c = Except.ok
      { c with
        state := State.RUNNING, func := none,
        submissions := c.submissions ++ [(e, w)],
        inlineCalls := c.inlineCalls ++ [w2] } := by
  constructor
  · simp [enqueueWork, hf, he]
  · simp [enqueueWorkInlineReentrant, hf, he, add]

/-- Witness for the C10 theorem on a concrete cell holding work 3 and
executor 7, with reentrant work item 4. -/
theorem enqueueWork_running_before_submit_witness :
    enqueueWork
      { func := some 3, keepAliveCount := 1, state := State.HAS_CALLBACK,
        executorKeepAlive := some 7, submissions := [], inlineCalls := [],
        destroyed := 0 } = Except.ok
      { func := none, keepAliveCount := 1, state := State.RUNNING,
        executorKeepAlive := some 7, submissions := [(7, 3)], inlineCalls := [],
        destroyed := 0 } ∧
    enqueueWorkInlineReentrant 4
      { func := some 3, keepAliveCount := 1, state := State.HAS_CALLBACK,
        executorKeepAlive := some 7, submissions := [], inlineCalls := [],
        destroyed := 0 } = Except.ok
      { func := none, keepAliveCount := 1, state := State.RUNNING,
        executorKeepAlive := some 7, submissions := [(7, 3)], inlineCalls := [4],
        destroyed := 0 } :=
  enqueueWork_running_before_submit 3 4 7
    { func := some 3, keepAliveCount := 1, state := State.HAS_CALLBACK,
      executorKeepAlive := some 7, submissions := [], inlineCalls := [],
      destroyed := 0 } rfl rfl

/-- Helper for the lifetime claim: starting from any not-yet-destroyed cell
with a positive reference count, a sequence of keep-alive operations whose
intermediate counts stay positive and whose final count is zero runs
delete exactly once, at the final operation and never earlier. -/
theorem runTokens_destroys_once (ops : List Bool) :
    ∀ c : Cell, c.destroyed = 0 → 0 < c.keepAliveCount →
      (∀ k, k < ops.length → 0 < (runTokens (ops.take k) c).keepAliveCount) →
      (runTokens ops c).keepAliveCount = 0 →
      (runTokens ops c).destroyed = 1 ∧
      (∀ k, k < ops.length → (runTokens (ops.take k) c).destroyed = 0) := by
  induction ops with
  | nil =>
    intro c h0 hpos hpre hzero
    simp only [runTokens] at hzero
    exact absurd hzero (by omega)
  | cons op rest ih =>
    intro c h0 hpos hpre hzero
    rcases rest with _ | ⟨r, rs⟩
    · constructor
      · cases op <;>
          simp only [runTokens, tokenStep, keepAliveAcquire, keepAliveRelease,
            releaseAndTryFree, Bool.false_eq_true, if_true, if_false] at hzero ⊢ <;>
          (try split_ifs at hzero ⊢) <;> simp_all <;> omega
      · intro k hk
        simp only [List.length_cons, List.length_nil] at hk
        have hk0 : k = 0 := by omega
        subst hk0
        simpa [runTokens] using h0
    · have h1 : 0 < (tokenStep op c).keepAliveCount := by
        have := hpre 1 (by simp)
        simpa [runTokens, List.take_succ_cons] using this
      have h2 : (tokenStep op c).destroyed = 0 := by
        cases op <;>
          simp only [tokenStep, keepAliveAcquire, keepAliveRelease,
            releaseAndTryFree, Bool.false_eq_true, if_true, if_false] at h1 ⊢ <;>
          (try split_ifs at h1 ⊢) <;> simp_all <;> omega
      have hpre2 : ∀ k, k < (r :: rs).length →
          0 < (runTokens ((r :: rs).take k) (tokenStep op c)).keepAliveCount := by
        intro k hk
        have := hpre (k + 1) (by simpa using Nat.succ_lt_succ hk)
        simpa [runTokens, List.take_succ_cons] using this
      have hzero2 : (runTokens (r :: rs) (tokenStep op c)).keepAliveCount = 0 := by
        simpa [runTokens] using hzero
      obtain ⟨hfin, hpref⟩ := ih (tokenStep op c) h2 h1 hpre2 hzero2
      refine ⟨by simpa [runTokens] using hfin, ?_⟩
      intro k hk
      rcases k with _ | j
      · simpa [runTokens] using h0
      · have hj : j < (r :: rs).length := by
          simpa using Nat.lt_of_succ_lt_succ hk
        have := hpref j hj
        simpa [runTokens, List.take_succ_cons] using this

/-- C5: create builds the cell with exactly one outstanding keep-alive
token; for every sequence of acquire/release operations under the token
discipline (every proper prefix leaves a positive outstanding count) whose
net count returns to zero, the cell is destroyed exactly once, by the
final release; it is never destroyed while any token remains outstanding,
and the reference count never becomes negative before destruction. -/
theorem create_lifetime (ops : List Bool)
    (hpre : ∀ k, k < ops.length → 0 < (runTokens (ops.take k) Cell.create).keepAliveCount)
    (hzero : (runTokens ops Cell.create).keepAliveCount = 0) :
    Cell.create.keepAliveCount = 1 ∧
    (runTokens ops Cell.create).destroyed = 1 ∧
    (∀ k, k < ops.length → (runTokens (ops.take k) Cell.create).destroyed = 0) ∧
    (∀ k, k ≤ ops.length → 0 ≤ (runTokens (ops.take k) Cell.create).keepAliveCount) := by
  have h := runTokens_destroys_once ops Cell.create rfl (by decide) hpre hzero
  refine ⟨rfl, h.1, h.2, ?_⟩
  intro k hk
  rcases Nat.lt_or_ge k ops.length with hlt | hge
  · exact le_of_lt (hpre k hlt)
  · have hk2 : k = ops.length := le_antisymm hk hge
    subst hk2
    simpa [List.take_length] using le_of_eq hzero.symm

/-- Witness for the C5 theorem: releasing the single creation token
destroys the cell exactly once. -/
theorem create_lifetime_witness :
    Cell.create.keepAliveCount = 1 ∧ (runTokens [false] Cell.create).destroyed = 1 := by
  have h := create_lifetime [false]
    (by
      intro k hk
      simp only [List.length_cons, List.length_nil] at hk
      have hk0 : k = 0 := by omega
      subst hk0
      decide)
    (by decide)
  exact ⟨h.1, h.2.1⟩

/-- The race invariant holds in the initial configuration. -/
theorem raceInv_init (w e : Nat) : RaceInv w e RaceConfig.init := by
  simp [RaceInv, RaceConfig.init]

/-- The race invariant is preserved by one step of the add thread. -/
theorem raceInv_addStep (w e : Nat) (m : RaceConfig) (h : RaceInv w e m) :
    RaceInv w e (addStep w m) := by
  obtain ⟨hv, hi, hp1, hp2, hc1, hc2, hc3, hx, hf, hsub, hst⟩ := h
  rcases m with ⟨p, q, s, f, x, subs, inl, vio⟩
  dsimp only at hv hi hp1 hp2 hc1 hc2 hc3 hx hf hsub hst
  subst hv hi hx hf hsub hst
  have hq : q ≤ 9 := by omega
  interval_cases p <;> interval_cases q <;>
    simp_all [RaceInv, addStep] <;> omega

/-- The race invariant is preserved by one step of the setExecutor thread. -/
theorem raceInv_setExecutorStep (w e : Nat) (m : RaceConfig) (h : RaceInv w e m) :
    RaceInv w e (setExecutorStep e m) := by
  obtain ⟨hv, hi, hp1, hp2, hc1, hc2, hc3, hx, hf, hsub, hst⟩ := h
  rcases m with ⟨p, q, s, f, x, subs, inl, vio⟩
  dsimp only at hv hi hp1 hp2 hc1 hc2 hc3 hx hf hsub hst
  subst hv hi hx hf hsub hst
  have hq : q ≤ 9 := by omega
  interval_cases p <;> interval_cases q <;>
    simp_all [RaceInv, setExecutorStep] <;> omega

/-- The race invariant is preserved by running any schedule. -/
theorem raceInv_runRace (w e : Nat) (sched : List Bool) (m : RaceConfig)
    (h : RaceInv w e m) : RaceInv w e (runRace w e sched m) := by
  induction sched generalizing m with
  | nil => exact h
  | cons b rest ih =>
    cases b
    · exact ih _ (raceInv_setExecutorStep w e m h)
    · exact ih _ (raceInv_addStep w e m h)

/-- C2: for every interleaving (schedule) of one add call and one
setExecutor call on a freshly created cell under which both calls run to
completion, the work is handed to the attached executor exactly once, no
inline invocation happens, no contract violation fires, and the cell ends
in RUNNING: whichever thread loses the compare-and-swap on the NEW state
performs the cross transition and the single submission. -/
theorem race_exactlyOnce (w e : Nat) (sched : List Bool)
    (h1 : addDone (runRace w e sched RaceConfig.init))
    (h2 : setExecutorDone (runRace w e sched RaceConfig.init)) :
    (runRace w e sched RaceConfig.init).submissions = [(e, w)] ∧
    (runRace w e sched RaceConfig.init).inlineCalls = [] ∧
    (runRace w e sched RaceConfig.init).violation = false ∧
    (runRace w e sched RaceConfig.init).state = State.RUNNING := by
  have hinv := raceInv_runRace w e sched RaceConfig.init (raceInv_init w e)
  obtain ⟨hv, hi, hp1, hp2, hc1, hc2, hc3, hx, hf, hsub, hst⟩ := hinv
  unfold addDone at h1
  unfold setExecutorDone at h2
  refine ⟨?_, hi, hv, ?_⟩
  · rw [hsub]
    have : (runRace w e sched RaceConfig.init).pcAdd = 9 ∨
        (runRace w e sched RaceConfig.init).pcSet = 9 := by omega
    simp [this]
  · rw [hst]
    have : (runRace w e sched RaceConfig.init).pcAdd = 9 ∨
        (runRace w e sched RaceConfig.init).pcSet = 9 := by omega
    rcases this with h | h <;> simp [h]

/-- Witness for the C2 theorem: the schedule that runs the whole add call
first and then the whole setExecutor call. -/
theorem race_exactlyOnce_witness :
    (runRace 0 1 [true, true, true, true, true, false, false, false, false, false]
      RaceConfig.init).submissions = [(1, 0)] ∧
    (runRace 0 1 [true, true, true, true, true, false, false, false, false, false]
      RaceConfig.init).inlineCalls = [] ∧
    (runRace 0 1 [true, true, true, true, true, false, false, false, false, false]
      RaceConfig.init).violation = false ∧
    (runRace 0 1 [true, true, true, true, true, false, false, false, false, false]
      RaceConfig.init).state = State.RUNNING :=
  race_exactlyOnce 0 1 [true, true, true, true, true, false, false, false, false, false]
    (Or.inl rfl) (Or.inr (Or.inl rfl))

end Folly
